import Mathlib

/-!
Verification of the word-game server (`src/server.js`).

The server's core is shallowly embedded below: the pure helpers
(`calculatePoints`, `canFormWord`, `generateGameCode`) are translated
directly, and the HTTP handlers (create / get / join / start / submit /
retract) become functions on an explicit `Game` state.  JS numbers used
here are integers in practice (points, timestamps), so they are modelled
as `Int`; JS object maps (the player roster) become association lists
keyed by the player-id string.
-/

namespace AnagramServer

/-- The alphabet used by `generateGameCode` in `src/server.js`
(`'ABCDEFGHJKLMNPQRSTUVWXYZ23456789'`). -/
def codeAlphabet : List Char := "ABCDEFGHJKLMNPQRSTUVWXYZ23456789".data

/-- `generateGameCode` from `src/server.js`: six independent random draws
from `codeAlphabet`.  The random indices (`Math.floor(Math.random() *
chars.length)`, always in range) are passed in as `r`. -/
def generateGameCode (r : Fin 6 → Fin codeAlphabet.length) : String :=
  String.mk ((List.finRange 6).map (fun i => codeAlphabet.get (r i)))

/-- The letter-count map built by the first loop of `canFormWord`:
absent keys read as `0`, matching JS `letterCount[letter] || 0`. -/
def buildLetterCount (gameLetters : List Char) : Char → Nat :=
  gameLetters.foldl (fun m letter => fun c => if c = letter then m c + 1 else m c)
    (fun _ => 0)

/-- The second loop of `canFormWord`: walk the word, failing when the
remaining count of the needed letter is zero (JS
`!letterCount[letter] || letterCount[letter] === 0`), otherwise
decrementing it. -/
def consumeLetters : List Char → (Char → Nat) → Bool
  | [], _ => true
  | letter :: rest, m =>
    if m letter = 0 then false
    else consumeLetters rest (fun c => if c = letter then m c - 1 else m c)

/-- `canFormWord(word, gameLetters)` from `src/server.js`. -/
def canFormWord (word gameLetters : String) : Bool :=
  consumeLetters word.data (buildLetterCount gameLetters.data)

/-- JS `String.prototype.trim` on the character list: drop whitespace
from both ends. -/
def trimChars (l : List Char) : List Char :=
  ((l.dropWhile Char.isWhitespace).reverse.dropWhile Char.isWhitespace).reverse

/-- The handlers' normalization `word.trim().toUpperCase()`. -/
def normalizeWord (w : String) : String :=
  String.mk ((trimChars w.data).map Char.toUpper)

/-- `calculatePoints(word)` from `src/server.js`. -/
def calculatePoints (word : String) : Int :=
  let length := word.length
  if length = 3 then 100
  else if length = 4 then 400
  else if length = 5 then 800
  else if length = 6 then 1400
  else if length = 7 then 1800
  else 2300 + ((length : Int) - 8) * 500

/-! ## The round state -/

/-- The `status` field of a game record: `'waiting'`, `'active'` or
`'finished'`. -/
inductive GameStatus where
  | waiting
  | active
  | finished
deriving DecidableEq, Repr

/-- One element of a player's `words` array: `{ word, points }`. -/
structure WordEntry where
  word : String
  points : Int
deriving DecidableEq, Repr

/-- A value of the `players` map: `{ name, words, score }`. -/
structure Player where
  name : String
  words : List WordEntry
  score : Int
deriving DecidableEq, Repr

/-- A game record as stored by `saveGame` / loaded by `loadGame`.  The JS
`players` object (string keys, insertion order) is an association list;
`startTime` is `none` for JS `null`.  Timestamps are in milliseconds. -/
structure Game where
  gameCode : String
  letters : String
  players : List (String × Player)
  status : GameStatus
  startTime : Option Int
  duration : Int
  createdAt : Int
deriving DecidableEq, Repr

/-- JS object assignment `game.players[playerId] = p`: replace in place
if the key exists, else append (string keys keep insertion order). -/
def setPlayer (ps : List (String × Player)) (pid : String) (p : Player) :
    List (String × Player) :=
  if (ps.lookup pid).isSome then
    ps.map (fun q => if q.1 = pid then (q.1, p) else q)
  else ps ++ [(pid, p)]

/-- In-place mutation of the player object found at key `pid` (JS
`game.players[playerId].words.push(...)` etc.): apply `f` to the entry
with that key. -/
def updatePlayer (ps : List (String × Player)) (pid : String)
    (f : Player → Player) : List (String × Player) :=
  ps.map (fun q => if q.1 = pid then (q.1, f q.2) else q)

/-- `POST /api/games`: the fresh game record built by the create
handler. -/
def createGame (code letters : String) (duration now : Int) : Game :=
  { gameCode := code, letters := letters, players := [],
    status := GameStatus.waiting, startTime := none,
    duration := duration, createdAt := now }

/-- `GET /api/games/:code`: the lazy finalization step.  JS tests
`game.status === 'active' && game.startTime` (so `null` and `0` are both
falsy) and compares `(now - startTime) / 1000 >= duration`, which over
the integers involved is `now - startTime ≥ duration * 1000`. -/
def readGame (g : Game) (now : Int) : Game :=
  match g.startTime with
  | some t =>
    if g.status = GameStatus.active ∧ t ≠ 0 then
      if now - t ≥ g.duration * 1000 then { g with status := GameStatus.finished }
      else g
    else g
  | none => g

/-- Result of the join handler. -/
inductive JoinResult where
  | error (msg : String)
  | ok (playerId : String)
deriving DecidableEq, Repr

/-- `POST /api/games/:code/join`.  The randomly generated player id is
passed in as `newPid`. -/
def joinGame (g : Game) (playerName : String) (newPid : String) :
    JoinResult × Game :=
  if g.status ≠ GameStatus.waiting then (JoinResult.error "Game already started", g)
  else if playerName.trim.length = 0 then (JoinResult.error "Player name required", g)
  else (JoinResult.ok newPid, { g with players := setPlayer g.players newPid (Player.mk playerName.trim [] 0) })

/-- Result of the start handler. -/
inductive StartResult where
  | error (msg : String)
  | ok
deriving DecidableEq, Repr

/-- `POST /api/games/:code/start`. -/
def startGame (g : Game) (now : Int) : StartResult × Game :=
  if g.status ≠ GameStatus.waiting then (StartResult.error "Game already started", g)
  else (StartResult.ok,
        { g with status := GameStatus.active, startTime := some now })

/-- Result of the submit-word handler: a 400 error, a `valid:false`
rejection with a reason, or a `valid:true` acceptance. -/
inductive SubmitResult where
  | error (msg : String)
  | rejected (reason : String)
  | accepted (points : Int) (word : String)
deriving DecidableEq, Repr

/-- `POST /api/games/:code/words`.  The in-memory word set is passed in
as the membership test `dict`. -/
def submitWord (dict : String → Bool) (g : Game) (playerId word : String) :
    SubmitResult × Game :=
  if g.status ≠ GameStatus.active then (SubmitResult.error "Game not active", g)
  else
    match g.players.lookup playerId with
    | none => (SubmitResult.error "Player not found", g)
    | some player =>
      let wordUpper := normalizeWord word
      if wordUpper.length < 3 then
        (SubmitResult.rejected "Word must be at least 3 letters", g)
      else if canFormWord wordUpper g.letters = false then
        (SubmitResult.rejected "Cannot form word from available letters", g)
      else if dict wordUpper = false then
        (SubmitResult.rejected "Word not in dictionary", g)
      else if player.words.any (fun w => w.word == wordUpper) then
        (SubmitResult.rejected "Word already submitted", g)
      else
        let points := calculatePoints wordUpper
        (SubmitResult.accepted points wordUpper,
         { g with players := updatePlayer g.players playerId (fun p =>
            { p with words := p.words ++ [{ word := wordUpper, points := points }],
                     score := p.score + points }) })

/-- Result of the retract handler. -/
inductive RetractResult where
  | error (msg : String)
  | success
deriving DecidableEq, Repr

/-- `findIndex` + `splice(index, 1)` on the `words` array: remove the
first entry whose `word` equals `w`, returning it and the rest. -/
def removeFirstWord (w : String) : List WordEntry → Option (WordEntry × List WordEntry)
  | [] => none
  | e :: rest =>
    if e.word == w then some (e, rest)
    else
      match removeFirstWord w rest with
      | none => none
      | some (r, l) => some (r, e :: l)

/-- `DELETE /api/games/:code/words`.  The handler mutates the looked-up
player object itself, so the update is expressed pointwise on the entry
stored at that key. -/
def retractWord (g : Game) (playerId word : String) : RetractResult × Game :=
  if g.status ≠ GameStatus.active then (RetractResult.error "Game not active", g)
  else
    match g.players.lookup playerId with
    | none => (RetractResult.error "Player not found", g)
    | some player =>
      let wordUpper := normalizeWord word
      match removeFirstWord wordUpper player.words with
      | none => (RetractResult.success, g)
      | some _ =>
        (RetractResult.success,
         { g with players := updatePlayer g.players playerId (fun p =>
            match removeFirstWord wordUpper p.words with
            | none => p
            | some (removed, rest) =>
              { p with words := rest, score := p.score - removed.points }) })

/-- One client-visible mutation/read of a round, with the
environment-supplied data (fresh player id, clock reading) as payload. -/
inductive Op where
  | join (name newPid : String)
  | start (now : Int)
  | read (now : Int)
  | submit (pid word : String)
  | retract (pid word : String)
deriving DecidableEq, Repr

/-- The state reached after one operation (the response is dropped). -/
def applyOp (dict : String → Bool) (g : Game) : Op → Game
  | Op.join name newPid => (joinGame g name newPid).2
  | Op.start now => (startGame g now).2
  | Op.read now => readGame g now
  | Op.submit pid word => (submitWord dict g pid word).2
  | Op.retract pid word => (retractWord g pid word).2

/-- The state reached after a sequence of operations. -/
def runOps (dict : String → Bool) (g : Game) : List Op → Game
  | [] => g
  | op :: rest => runOps dict (applyOp dict g op) rest

/-- Position of a status along the `waiting → active → finished`
lifecycle. -/
def statusRank : GameStatus → Nat
  | GameStatus.waiting => 0
  | GameStatus.active => 1
  | GameStatus.finished => 2

/-! ## Invariants -/

/-- The spec's bookkeeping invariant for one player: `score` equals the
sum of `points` over `words`. -/
def playerScoreOk (p : Player) : Prop :=
  p.score = (p.words.map WordEntry.points).sum

/-- The bookkeeping invariant for a whole game. -/
def scoreInv (g : Game) : Prop := ∀ q ∈ g.players, playerScoreOk q.2

/-- Well-formedness of the roster representation: player-id keys are
pairwise distinct (automatic for a JS object, explicit for the
association list modelling it). -/
def keysNodupInv (g : Game) : Prop := (g.players.map Prod.fst).Nodup

/-- One player's word strings are pairwise distinct. -/
def playerWordsNodup (p : Player) : Prop :=
  (p.words.map WordEntry.word).Nodup

/-- Every player's word strings are pairwise distinct. -/
def wordsNodupInv (g : Game) : Prop := ∀ q ∈ g.players, playerWordsNodup q.2

instance (p : Player) : Decidable (playerScoreOk p) := by
  unfold playerScoreOk; infer_instance

instance (g : Game) : Decidable (scoreInv g) := by
  unfold scoreInv; exact List.decidableBAll _ _

instance (g : Game) : Decidable (keysNodupInv g) := by
  unfold keysNodupInv; infer_instance

instance (p : Player) : Decidable (playerWordsNodup p) := by
  unfold playerWordsNodup; infer_instance

instance (g : Game) : Decidable (wordsNodupInv g) := by
  unfold wordsNodupInv; exact List.decidableBAll _ _

/-! ## Concrete fixtures used by the witness theorems -/

/-- A small dictionary: the word set holds `MAST`, `MASTER` and `TEAM`. -/
def dictW : String → Bool := fun w => w == "MAST" || w == "MASTER" || w == "TEAM"

/-- A freshly created round (status `waiting`, no players). -/
def gameW0 : Game := createGame "ABC234" "MASTER" 10 0

/-- An active round with one player `p1` (Alice) and no words yet. -/
def gameW1 : Game :=
  { gameCode := "ABC234", letters := "MASTER",
    players := [("p1", Player.mk "Alice" [] 0)],
    status := GameStatus.active, startTime := some 1000,
    duration := 10, createdAt := 0 }

/-- `gameW1` after Alice's accepted submission of `MAST`. -/
def gameW1a : Game :=
  { gameW1 with players := [("p1", Player.mk "Alice" [WordEntry.mk "MAST" 400] 400)] }

/-! ## Word validator and scorer -/

theorem buildLetterCount_apply (l : List Char) (c : Char) :
    buildLetterCount l c = l.count c := by
  have h : ∀ (l : List Char) (m : Char → Nat),
      l.foldl (fun m letter => fun c => if c = letter then m c + 1 else m c) m c
        = m c + l.count c := by
    intro l
    induction l with
    | nil => intro m; simp
    | cons a t ih =>
      intro m
      simp only [List.foldl_cons, ih]
      by_cases hca : c = a
      · subst hca
        simp [List.count_cons]
        omega
      · simp [hca, List.count_cons, Ne.symm hca]
  simpa [buildLetterCount] using h l (fun _ => 0)

theorem consumeLetters_iff (w : List Char) (m : Char → Nat) :
    consumeLetters w m = true ↔ ∀ c, w.count c ≤ m c := by
  induction w generalizing m with
  | nil => simp [consumeLetters]
  | cons a rest ih =>
    simp only [consumeLetters]
    by_cases ha : m a = 0
    · simp only [ha, if_true]
      constructor
      · intro h; exact absurd h (by simp)
      · intro h
        exfalso
        have h2 := h a
        rw [List.count_cons_self] at h2
        omega
    · simp only [ha, if_false, ih]
      constructor
      · intro h c
        by_cases hc : c = a
        · subst hc
          have h2 := h c
          rw [if_pos rfl] at h2
          rw [List.count_cons_self]
          omega
        · have h2 := h c
          rw [if_neg hc] at h2
          rw [List.count_cons_of_ne hc]
          exact h2
      · intro h c
        by_cases hc : c = a
        · subst hc
          have h2 := h c
          rw [List.count_cons_self] at h2
          rw [if_pos rfl]
          omega
        · have h2 := h c
          rw [List.count_cons_of_ne hc] at h2
          rw [if_neg hc]
          exact h2

/-- C2: `canFormWord(word, letters)` is true iff every character occurs
in `word` at most as often as in `letters`. -/
theorem canFormWord_iff (word letters : String) :
    canFormWord word letters = true ↔
      ∀ c : Char, word.data.count c ≤ letters.data.count c := by
  unfold canFormWord
  rw [consumeLetters_iff]
  constructor <;> intro h c <;> have hc := h c <;>
    simpa [buildLetterCount_apply] using hc

/-- C1: `calculatePoints` returns exactly the piecewise value of the
word's length: 3→100, 4→400, 5→800, 6→1400, 7→1800, and
`2300 + (length-8)*500` for length ≥ 8. -/
theorem calculatePoints_spec (w : String) :
    (w.length = 3 → calculatePoints w = 100) ∧
    (w.length = 4 → calculatePoints w = 400) ∧
    (w.length = 5 → calculatePoints w = 800) ∧
    (w.length = 6 → calculatePoints w = 1400) ∧
    (w.length = 7 → calculatePoints w = 1800) ∧
    (8 ≤ w.length → calculatePoints w = 2300 + ((w.length : Int) - 8) * 500) := by
  refine ⟨?_, ?_, ?_, ?_, ?_, ?_⟩ <;> intro h
  · simp [calculatePoints, h]
  · simp [calculatePoints, h]
  · simp [calculatePoints, h]
  · simp [calculatePoints, h]
  · simp [calculatePoints, h]
  · have h3 : w.length ≠ 3 := by omega
    have h4 : w.length ≠ 4 := by omega
    have h5 : w.length ≠ 5 := by omega
    have h6 : w.length ≠ 6 := by omega
    have h7 : w.length ≠ 7 := by omega
    simp [calculatePoints, h3, h4, h5, h6, h7]

/-- Witness for C1 at concrete lengths 3 and 9. -/
theorem calculatePoints_spec_witness :
    calculatePoints "CAT" = 100 ∧ calculatePoints "CHAMPIONS" = 2800 := by
  refine ⟨(calculatePoints_spec "CAT").1 (by decide), ?_⟩
  have h := (calculatePoints_spec "CHAMPIONS").2.2.2.2.2 (by decide)
  simpa using h

/-! ## Association-list lemmas for the player roster -/

theorem lookup_updatePlayer (ps : List (String × Player)) (pid : String)
    (f : Player → Player) :
    (updatePlayer ps pid f).lookup pid = (ps.lookup pid).map f := by
  induction ps with
  | nil => rfl
  | cons q t ih =>
    obtain ⟨k, v⟩ := q
    by_cases h : k = pid
    · subst h
      simp [updatePlayer, List.lookup_cons]
    · have hb : (pid == k) = false := by
        simp [Ne.symm h]
      simp only [updatePlayer, List.map_cons] at ih ⊢
      rw [if_neg (by simpa using h)]
      simp [List.lookup_cons, hb, ih]

theorem updatePlayer_keys (ps : List (String × Player)) (pid : String)
    (f : Player → Player) :
    (updatePlayer ps pid f).map Prod.fst = ps.map Prod.fst := by
  induction ps with
  | nil => rfl
  | cons q t ih =>
    simp only [updatePlayer, List.map_cons] at ih ⊢
    by_cases h : q.1 = pid
    · rw [if_pos h]; simp [ih, h]
    · rw [if_neg h]; simp [ih]

theorem mem_updatePlayer {ps : List (String × Player)} {pid : String}
    {f : Player → Player} {q : String × Player}
    (hq : q ∈ updatePlayer ps pid f) :
    q ∈ ps ∨ ∃ q0, q0 ∈ ps ∧ q0.1 = pid ∧ q = (q0.1, f q0.2) := by
  unfold updatePlayer at hq
  rcases List.mem_map.1 hq with ⟨q0, hq0, hfq⟩
  by_cases h : q0.1 = pid
  · right; exact ⟨q0, hq0, h, by rw [← hfq, if_pos h]⟩
  · left; rw [← hfq, if_neg h]; exact hq0

theorem mem_setPlayer {ps : List (String × Player)} {pid : String}
    {p : Player} {q : String × Player} (hq : q ∈ setPlayer ps pid p) :
    q ∈ ps ∨ q.2 = p := by
  unfold setPlayer at hq
  by_cases hs : (ps.lookup pid).isSome
  · rw [if_pos hs] at hq
    rcases List.mem_map.1 hq with ⟨q0, hq0, hfq⟩
    by_cases h : q0.1 = pid
    · right; rw [← hfq, if_pos h]
    · left; rw [← hfq, if_neg h]; exact hq0
  · rw [if_neg hs] at hq
    rcases List.mem_append.1 hq with h | h
    · left; exact h
    · right
      have : q = (pid, p) := by simpa using h
      rw [this]

theorem lookup_eq_none_iff (ps : List (String × Player)) (pid : String) :
    ps.lookup pid = none ↔ pid ∉ ps.map Prod.fst := by
  induction ps with
  | nil => simp
  | cons q t ih =>
    obtain ⟨k, v⟩ := q
    by_cases h : pid = k
    · subst h; simp [List.lookup_cons]
    · have hb : (pid == k) = false := by simp [h]
      simp [List.lookup_cons, hb, ih, h]

theorem setPlayer_keys_nodup {ps : List (String × Player)} {pid : String}
    {p : Player} (h : (ps.map Prod.fst).Nodup) :
    ((setPlayer ps pid p).map Prod.fst).Nodup := by
  unfold setPlayer
  by_cases hs : (ps.lookup pid).isSome
  · rw [if_pos hs]
    have hk : ∀ l : List (String × Player),
        (l.map (fun q => if q.1 = pid then (q.1, p) else q)).map Prod.fst
          = l.map Prod.fst := by
      intro l
      induction l with
      | nil => rfl
      | cons q t ih2 =>
        simp only [List.map_cons, ih2]
        by_cases hq : q.1 = pid
        · rw [if_pos hq]
        · rw [if_neg hq]
    rw [hk]; exact h
  · rw [if_neg hs]
    have hn : ps.lookup pid = none := by
      cases hl : ps.lookup pid with
      | none => rfl
      | some v => rw [hl] at hs; simp at hs
    have hnin := (lookup_eq_none_iff ps pid).1 hn
    rw [List.map_append]
    simp [List.nodup_append, h, hnin]

theorem lookup_eq_of_mem_nodup {ps : List (String × Player)}
    (hnd : (ps.map Prod.fst).Nodup) {q : String × Player} (hq : q ∈ ps) :
    ps.lookup q.1 = some q.2 := by
  induction ps with
  | nil => simp at hq
  | cons a t ih =>
    obtain ⟨k, v⟩ := a
    rcases List.mem_cons.1 hq with rfl | hq2
    · simp [List.lookup_cons]
    · have hk : q.1 ≠ k := by
        intro he
        have hmem : q.1 ∈ t.map Prod.fst := List.mem_map_of_mem Prod.fst hq2
        rw [he] at hmem
        exact (List.nodup_cons.1 (by simpa using hnd)).1 hmem
      have hb : (q.1 == k) = false := by simp [hk]
      simp only [List.lookup_cons, hb]
      exact ih (List.nodup_cons.1 (by simpa using hnd)).2 hq2

/-! ## Lemmas about `removeFirstWord` -/

theorem removeFirstWord_points_sum {w : String} :
    ∀ {l : List WordEntry} {r : WordEntry} {rest : List WordEntry},
      removeFirstWord w l = some (r, rest) →
      (l.map WordEntry.points).sum = r.points + (rest.map WordEntry.points).sum := by
  intro l
  induction l with
  | nil => intro r rest h; simp [removeFirstWord] at h
  | cons e t ih =>
    intro r rest h
    unfold removeFirstWord at h
    by_cases he : e.word == w
    · rw [if_pos he] at h
      simp only [Option.some.injEq, Prod.mk.injEq] at h
      obtain ⟨rfl, rfl⟩ := h
      simp
    · rw [if_neg he] at h
      cases hr : removeFirstWord w t with
      | none => rw [hr] at h; simp at h
      | some pr =>
        obtain ⟨r0, l0⟩ := pr
        rw [hr] at h
        simp only [Option.some.injEq, Prod.mk.injEq] at h
        obtain ⟨rfl, rfl⟩ := h
        have := ih hr
        simp only [List.map_cons, List.sum_cons, this]
        omega

theorem removeFirstWord_sublist {w : String} :
    ∀ {l : List WordEntry} {r : WordEntry} {rest : List WordEntry},
      removeFirstWord w l = some (r, rest) → rest.Sublist l := by
  intro l
  induction l with
  | nil => intro r rest h; simp [removeFirstWord] at h
  | cons e t ih =>
    intro r rest h
    unfold removeFirstWord at h
    by_cases he : e.word == w
    · rw [if_pos he] at h
      simp only [Option.some.injEq, Prod.mk.injEq] at h
      obtain ⟨rfl, rfl⟩ := h
      exact List.sublist_cons_self e t
    · rw [if_neg he] at h
      cases hr : removeFirstWord w t with
      | none => rw [hr] at h; simp at h
      | some pr =>
        obtain ⟨r0, l0⟩ := pr
        rw [hr] at h
        simp only [Option.some.injEq, Prod.mk.injEq] at h
        obtain ⟨rfl, rfl⟩ := h
        exact List.Sublist.cons₂ e (ih hr)

/-! ## Score-invariant preservation -/

theorem playerScoreOk_append {p : Player} (hp : playerScoreOk p)
    (wordUpper : String) (points : Int) :
    playerScoreOk { p with words := p.words ++ [WordEntry.mk wordUpper points],
                           score := p.score + points } := by
  unfold playerScoreOk at hp ⊢
  simp [hp]

theorem playerScoreOk_remove {p : Player} {w : String} {removed : WordEntry}
    {rest : List WordEntry} (hp : playerScoreOk p)
    (hr : removeFirstWord w p.words = some (removed, rest)) :
    playerScoreOk { p with words := rest, score := p.score - removed.points } := by
  unfold playerScoreOk at hp ⊢
  have hs := removeFirstWord_points_sum hr
  simp only []
  omega

theorem scoreInv_applyOp (dict : String → Bool) (g : Game) (op : Op)
    (h : scoreInv g) : scoreInv (applyOp dict g op) := by
  cases op with
  | join name newPid =>
    show scoreInv (joinGame g name newPid).2
    unfold joinGame
    by_cases h1 : g.status ≠ GameStatus.waiting
    · rw [if_pos h1]; exact h
    · rw [if_neg h1]
      by_cases h2 : name.trim.length = 0
      · rw [if_pos h2]; exact h
      · rw [if_neg h2]
        intro q hq
        rcases mem_setPlayer hq with hin | hp
        · exact h q hin
        · show playerScoreOk q.2
          rw [hp]
          rfl
  | start now =>
    show scoreInv (startGame g now).2
    unfold startGame
    by_cases h1 : g.status ≠ GameStatus.waiting
    · rw [if_pos h1]; exact h
    · rw [if_neg h1]; exact h
  | read now =>
    show scoreInv (readGame g now)
    unfold readGame
    cases g.startTime with
    | none => exact h
    | some t =>
      dsimp only
      by_cases h1 : g.status = GameStatus.active ∧ t ≠ 0
      · rw [if_pos h1]
        by_cases h2 : now - t ≥ g.duration * 1000
        · rw [if_pos h2]; exact h
        · rw [if_neg h2]; exact h
      · rw [if_neg h1]; exact h
  | submit pid word =>
    show scoreInv (submitWord dict g pid word).2
    unfold submitWord
    by_cases h1 : g.status ≠ GameStatus.active
    · rw [if_pos h1]; exact h
    · rw [if_neg h1]
      cases hl : g.players.lookup pid with
      | none => exact h
      | some player =>
        dsimp only
        by_cases h2 : (normalizeWord word).length < 3
        · rw [if_pos h2]; exact h
        · rw [if_neg h2]
          by_cases h3 : canFormWord (normalizeWord word) g.letters = false
          · rw [if_pos h3]; exact h
          · rw [if_neg h3]
            by_cases h4 : dict (normalizeWord word) = false
            · rw [if_pos h4]; exact h
            · rw [if_neg h4]
              by_cases h5 : player.words.any (fun w => w.word == normalizeWord word)
              · rw [if_pos h5]; exact h
              · rw [if_neg h5]
                intro q hq
                dsimp only at hq
                rcases mem_updatePlayer hq with hin | ⟨q0, hq0, _, hq2⟩
                · exact h q hin
                · show playerScoreOk q.2
                  rw [hq2]
                  exact playerScoreOk_append (h q0 hq0) _ _
  | retract pid word =>
    show scoreInv (retractWord g pid word).2
    unfold retractWord
    by_cases h1 : g.status ≠ GameStatus.active
    · rw [if_pos h1]; exact h
    · rw [if_neg h1]
      cases hl : g.players.lookup pid with
      | none => exact h
      | some player =>
        dsimp only
        cases hr : removeFirstWord (normalizeWord word) player.words with
        | none => exact h
        | some pr =>
          dsimp only
          intro q hq
          dsimp only at hq
          rcases mem_updatePlayer hq with hin | ⟨q0, hq0, _, hq2⟩
          · exact h q hin
          · show playerScoreOk q.2
            rw [hq2]
            cases hr2 : removeFirstWord (normalizeWord word) q0.2.words with
            | none => simpa [hr2] using h q0 hq0
            | some pr2 =>
              obtain ⟨removed, rest⟩ := pr2
              simpa [hr2] using playerScoreOk_remove (h q0 hq0) hr2

/-- C4: after any sequence of operations, every player's `score` equals
the sum of `points` over their current `words` list (in particular after
any sequence of `submitWord` / `retractWord` calls). -/
theorem score_sum_invariant (dict : String → Bool) (ops : List Op) (g : Game)
    (h : scoreInv g) : scoreInv (runOps dict g ops) := by
  induction ops generalizing g with
  | nil => exact h
  | cons op rest ih => exact ih (applyOp dict g op) (scoreInv_applyOp dict g op h)

/-- Witness for C4: a concrete run with two submissions and one
retraction keeps `score = Σ points`. -/
theorem score_sum_invariant_witness :
    scoreInv gameW1 ∧
    scoreInv (runOps dictW gameW1
      [Op.submit "p1" "mast", Op.submit "p1" "team", Op.retract "p1" "mast"]) :=
  ⟨by decide,
   score_sum_invariant dictW
     [Op.submit "p1" "mast", Op.submit "p1" "team", Op.retract "p1" "mast"]
     gameW1 (by decide)⟩

/-! ## Key-uniqueness and word-distinctness preservation -/

theorem keysNodupInv_applyOp (dict : String → Bool) (g : Game) (op : Op)
    (h : keysNodupInv g) : keysNodupInv (applyOp dict g op) := by
  cases op with
  | join name newPid =>
    show keysNodupInv (joinGame g name newPid).2
    unfold joinGame
    by_cases h1 : g.status ≠ GameStatus.waiting
    · rw [if_pos h1]; exact h
    · rw [if_neg h1]
      by_cases h2 : name.trim.length = 0
      · rw [if_pos h2]; exact h
      · rw [if_neg h2]
        exact setPlayer_keys_nodup h
  | start now =>
    show keysNodupInv (startGame g now).2
    unfold startGame
    by_cases h1 : g.status ≠ GameStatus.waiting
    · rw [if_pos h1]; exact h
    · rw [if_neg h1]; exact h
  | read now =>
    show keysNodupInv (readGame g now)
    unfold readGame
    cases g.startTime with
    | none => exact h
    | some t =>
      dsimp only
      by_cases h1 : g.status = GameStatus.active ∧ t ≠ 0
      · rw [if_pos h1]
        by_cases h2 : now - t ≥ g.duration * 1000
        · rw [if_pos h2]; exact h
        · rw [if_neg h2]; exact h
      · rw [if_neg h1]; exact h
  | submit pid word =>
    show keysNodupInv (submitWord dict g pid word).2
    unfold submitWord
    by_cases h1 : g.status ≠ GameStatus.active
    · rw [if_pos h1]; exact h
    · rw [if_neg h1]
      cases hl : g.players.lookup pid with
      | none => exact h
      | some player =>
        dsimp only
        by_cases h2 : (normalizeWord word).length < 3
        · rw [if_pos h2]; exact h
        · rw [if_neg h2]
          by_cases h3 : canFormWord (normalizeWord word) g.letters = false
          · rw [if_pos h3]; exact h
          · rw [if_neg h3]
            by_cases h4 : dict (normalizeWord word) = false
            · rw [if_pos h4]; exact h
            · rw [if_neg h4]
              by_cases h5 : player.words.any (fun w => w.word == normalizeWord word)
              · rw [if_pos h5]; exact h
              · rw [if_neg h5]
                unfold keysNodupInv at h ⊢
                dsimp only
                rw [updatePlayer_keys]
                exact h
  | retract pid word =>
    show keysNodupInv (retractWord g pid word).2
    unfold retractWord
    by_cases h1 : g.status ≠ GameStatus.active
    · rw [if_pos h1]; exact h
    · rw [if_neg h1]
      cases hl : g.players.lookup pid with
      | none => exact h
      | some player =>
        dsimp only
        cases hr : removeFirstWord (normalizeWord word) player.words with
        | none => exact h
        | some pr =>
          unfold keysNodupInv at h ⊢
          dsimp only
          rw [updatePlayer_keys]
          exact h

theorem playerWordsNodup_append {p : Player} {wordUpper : String} {points : Int}
    (hp : playerWordsNodup p)
    (hnew : ∀ e ∈ p.words, e.word ≠ wordUpper) :
    playerWordsNodup { p with words := p.words ++ [WordEntry.mk wordUpper points] } := by
  unfold playerWordsNodup at hp ⊢
  dsimp only
  rw [List.map_append]
  simp only [List.map_cons, List.map_nil]
  rw [List.nodup_append]
  refine ⟨hp, List.nodup_singleton _, ?_⟩
  intro a ha hb
  simp only [List.mem_singleton] at hb
  rcases List.mem_map.1 ha with ⟨e, he, rfl⟩
  exact hnew e he hb

theorem wordsNodupInv_applyOp (dict : String → Bool) (g : Game) (op : Op)
    (hk : keysNodupInv g) (h : wordsNodupInv g) :
    wordsNodupInv (applyOp dict g op) := by
  cases op with
  | join name newPid =>
    show wordsNodupInv (joinGame g name newPid).2
    unfold joinGame
    by_cases h1 : g.status ≠ GameStatus.waiting
    · rw [if_pos h1]; exact h
    · rw [if_neg h1]
      by_cases h2 : name.trim.length = 0
      · rw [if_pos h2]; exact h
      · rw [if_neg h2]
        intro q hq
        rcases mem_setPlayer hq with hin | hp
        · exact h q hin
        · show playerWordsNodup q.2
          rw [hp]
          exact List.nodup_nil
  | start now =>
    show wordsNodupInv (startGame g now).2
    unfold startGame
    by_cases h1 : g.status ≠ GameStatus.waiting
    · rw [if_pos h1]; exact h
    · rw [if_neg h1]; exact h
  | read now =>
    show wordsNodupInv (readGame g now)
    unfold readGame
    cases g.startTime with
    | none => exact h
    | some t =>
      dsimp only
      by_cases h1 : g.status = GameStatus.active ∧ t ≠ 0
      · rw [if_pos h1]
        by_cases h2 : now - t ≥ g.duration * 1000
        · rw [if_pos h2]; exact h
        · rw [if_neg h2]; exact h
      · rw [if_neg h1]; exact h
  | submit pid word =>
    show wordsNodupInv (submitWord dict g pid word).2
    unfold submitWord
    by_cases h1 : g.status ≠ GameStatus.active
    · rw [if_pos h1]; exact h
    · rw [if_neg h1]
      cases hl : g.players.lookup pid with
      | none => exact h
      | some player =>
        dsimp only
        by_cases h2 : (normalizeWord word).length < 3
        · rw [if_pos h2]; exact h
        · rw [if_neg h2]
          by_cases h3 : canFormWord (normalizeWord word) g.letters = false
          · rw [if_pos h3]; exact h
          · rw [if_neg h3]
            by_cases h4 : dict (normalizeWord word) = false
            · rw [if_pos h4]; exact h
            · rw [if_neg h4]
              by_cases h5 : player.words.any (fun w => w.word == normalizeWord word)
              · rw [if_pos h5]; exact h
              · rw [if_neg h5]
                intro q hq
                dsimp only at hq
                rcases mem_updatePlayer hq with hin | ⟨q0, hq0, hkey, hq2⟩
                · exact h q hin
                · show playerWordsNodup q.2
                  rw [hq2]
                  have hq02 : q0.2 = player := by
                    have hlk := lookup_eq_of_mem_nodup hk hq0
                    rw [hkey, hl] at hlk
                    exact (Option.some.inj hlk).symm
                  refine playerWordsNodup_append (h q0 hq0) ?_
                  intro e he heq
                  rw [hq02] at he
                  apply h5
                  rw [List.any_eq_true]
                  exact ⟨e, he, by simp [heq]⟩
  | retract pid word =>
    show wordsNodupInv (retractWord g pid word).2
    unfold retractWord
    by_cases h1 : g.status ≠ GameStatus.active
    · rw [if_pos h1]; exact h
    · rw [if_neg h1]
      cases hl : g.players.lookup pid with
      | none => exact h
      | some player =>
        dsimp only
        cases hr : removeFirstWord (normalizeWord word) player.words with
        | none => exact h
        | some pr =>
          dsimp only
          intro q hq
          dsimp only at hq
          rcases mem_updatePlayer hq with hin | ⟨q0, hq0, _, hq2⟩
          · exact h q hin
          · show playerWordsNodup q.2
            rw [hq2]
            cases hr2 : removeFirstWord (normalizeWord word) q0.2.words with
            | none => simpa [hr2] using h q0 hq0
            | some pr2 =>
              obtain ⟨removed, rest⟩ := pr2
              have hsub := removeFirstWord_sublist hr2
              have := (h q0 hq0)
              unfold playerWordsNodup at this ⊢
              simp only [hr2]
              exact this.sublist (hsub.map WordEntry.word)

theorem wf_runOps_aux (dict : String → Bool) (ops : List Op) (g : Game)
    (hk : keysNodupInv g) (hw : wordsNodupInv g) :
    keysNodupInv (runOps dict g ops) ∧ wordsNodupInv (runOps dict g ops) := by
  induction ops generalizing g with
  | nil => exact ⟨hk, hw⟩
  | cons op rest ih =>
    exact ih (applyOp dict g op) (keysNodupInv_applyOp dict g op hk)
      (wordsNodupInv_applyOp dict g op hk hw)

/-- C10: starting from a well-formed round (distinct player keys,
per-player distinct word strings), after any sequence of operations each
player's word strings remain pairwise distinct. -/
theorem words_distinct_invariant (dict : String → Bool) (ops : List Op) (g : Game)
    (hk : keysNodupInv g) (hw : wordsNodupInv g) :
    wordsNodupInv (runOps dict g ops) :=
  (wf_runOps_aux dict ops g hk hw).2

/-! ## Status lifecycle -/

theorem joinGame_status_eq (g : Game) (name newPid : String) :
    (joinGame g name newPid).2.status = g.status := by
  unfold joinGame
  by_cases h1 : g.status ≠ GameStatus.waiting
  · rw [if_pos h1]
  · rw [if_neg h1]
    by_cases h2 : name.trim.length = 0
    · rw [if_pos h2]
    · rw [if_neg h2]

theorem submitWord_status_eq (dict : String → Bool) (g : Game) (pid word : String) :
    (submitWord dict g pid word).2.status = g.status := by
  unfold submitWord
  by_cases h1 : g.status ≠ GameStatus.active
  · rw [if_pos h1]
  · rw [if_neg h1]
    cases hl : g.players.lookup pid with
    | none => rfl
    | some player =>
      dsimp only
      by_cases h2 : (normalizeWord word).length < 3
      · rw [if_pos h2]
      · rw [if_neg h2]
        by_cases h3 : canFormWord (normalizeWord word) g.letters = false
        · rw [if_pos h3]
        · rw [if_neg h3]
          by_cases h4 : dict (normalizeWord word) = false
          · rw [if_pos h4]
          · rw [if_neg h4]
            by_cases h5 : player.words.any (fun w => w.word == normalizeWord word)
            · rw [if_pos h5]
            · rw [if_neg h5]

theorem retractWord_status_eq (g : Game) (pid word : String) :
    (retractWord g pid word).2.status = g.status := by
  unfold retractWord
  by_cases h1 : g.status ≠ GameStatus.active
  · rw [if_pos h1]
  · rw [if_neg h1]
    cases hl : g.players.lookup pid with
    | none => rfl
    | some player =>
      dsimp only
      cases hr : removeFirstWord (normalizeWord word) player.words with
      | none => rfl
      | some pr => rfl

theorem applyOp_status_finished (dict : String → Bool) (g : Game) (op : Op)
    (h : g.status = GameStatus.finished) :
    (applyOp dict g op).status = GameStatus.finished := by
  cases op with
  | join name newPid =>
    show (joinGame g name newPid).2.status = GameStatus.finished
    rw [joinGame_status_eq]; exact h
  | start now =>
    show (startGame g now).2.status = GameStatus.finished
    unfold startGame
    rw [if_pos (show g.status ≠ GameStatus.waiting by rw [h]; exact fun hc => by cases hc)]
    exact h
  | read now =>
    show (readGame g now).status = GameStatus.finished
    unfold readGame
    cases g.startTime with
    | none => exact h
    | some t =>
      dsimp only
      rw [if_neg (show ¬(g.status = GameStatus.active ∧ t ≠ 0) by
        intro hc; rw [h] at hc; cases hc.1)]
      exact h
  | submit pid word =>
    show (submitWord dict g pid word).2.status = GameStatus.finished
    rw [submitWord_status_eq]; exact h
  | retract pid word =>
    show (retractWord g pid word).2.status = GameStatus.finished
    rw [retractWord_status_eq]; exact h

theorem applyOp_status_mono (dict : String → Bool) (g : Game) (op : Op) :
    statusRank g.status ≤ statusRank (applyOp dict g op).status := by
  cases op with
  | join name newPid =>
    show statusRank g.status ≤ statusRank (joinGame g name newPid).2.status
    rw [joinGame_status_eq]
  | start now =>
    show statusRank g.status ≤ statusRank (startGame g now).2.status
    unfold startGame
    by_cases h1 : g.status ≠ GameStatus.waiting
    · rw [if_pos h1]
    · rw [if_neg h1]
      have h2 : g.status = GameStatus.waiting := not_not.1 h1
      rw [h2]
      exact Nat.zero_le _
  | read now =>
    show statusRank g.status ≤ statusRank (readGame g now).status
    unfold readGame
    cases g.startTime with
    | none => exact Nat.le_refl _
    | some t =>
      dsimp only
      by_cases h1 : g.status = GameStatus.active ∧ t ≠ 0
      · rw [if_pos h1]
        by_cases h2 : now - t ≥ g.duration * 1000
        · rw [if_pos h2, h1.1]
          exact Nat.le_succ _
        · rw [if_neg h2]
      · rw [if_neg h1]
  | submit pid word =>
    show statusRank g.status ≤ statusRank (submitWord dict g pid word).2.status
    rw [submitWord_status_eq]
  | retract pid word =>
    show statusRank g.status ≤ statusRank (retractWord g pid word).2.status
    rw [retractWord_status_eq]

/-- C6: once a round's elapsed time has reached its duration, `read`
yields `finished` and keeps yielding `finished` on every later `read`;
a `finished` status is never changed by any operation; and every
operation moves the status forward (never backward) along
`waiting → active → finished`. -/
theorem status_forward_only (dict : String → Bool) (g : Game) :
    (∀ t now, g.status = GameStatus.active → g.startTime = some t → t ≠ 0 →
       now - t ≥ g.duration * 1000 →
       (readGame g now).status = GameStatus.finished ∧
       ∀ now2, (readGame (readGame g now) now2).status = GameStatus.finished) ∧
    (g.status = GameStatus.finished →
       ∀ op, (applyOp dict g op).status = GameStatus.finished) ∧
    (∀ op, statusRank g.status ≤ statusRank (applyOp dict g op).status) := by
  refine ⟨?_, ?_, ?_⟩
  · intro t now hact hst ht helapsed
    have hfin : (readGame g now).status = GameStatus.finished := by
      unfold readGame
      rw [hst]
      dsimp only
      rw [if_pos ⟨hact, ht⟩, if_pos helapsed]
    refine ⟨hfin, ?_⟩
    intro now2
    exact applyOp_status_finished dict (readGame g now) (Op.read now2) hfin
  · intro hfin op
    exact applyOp_status_finished dict g op hfin
  · intro op
    exact applyOp_status_mono dict g op

/-- Witness for C6: the concrete active round `gameW1` (started at
`t = 1000` ms, duration 10 s) read at `now = 12000` ms is finished, a
second read keeps it finished, and the status rank does not decrease. -/
theorem status_forward_only_witness :
    (readGame gameW1 12000).status = GameStatus.finished ∧
    (readGame (readGame gameW1 12000) 0).status = GameStatus.finished ∧
    statusRank gameW1.status ≤ statusRank (applyOp dictW gameW1 (Op.read 12000)).status := by
  have h := (status_forward_only dictW gameW1).1 1000 12000 (by decide) (by decide)
    (by decide) (by decide)
  exact ⟨h.1, h.2 0, (status_forward_only dictW gameW1).2.2 (Op.read 12000)⟩

/-- Witness for C10: a concrete run where the duplicate submission of
`mast` is rejected, keeping the word list duplicate-free. -/
theorem words_distinct_invariant_witness :
    keysNodupInv gameW1 ∧ wordsNodupInv gameW1 ∧
    wordsNodupInv (runOps dictW gameW1
      [Op.submit "p1" "mast", Op.submit "p1" "mast", Op.submit "p1" "team"]) :=
  ⟨by decide, by decide,
   words_distinct_invariant dictW
     [Op.submit "p1" "mast", Op.submit "p1" "mast", Op.submit "p1" "team"]
     gameW1 (by decide) (by decide)⟩

/-! ## The submit handler's validation chain -/

/-- With the round active and the player present, `submitWord` is
exactly the four-way validation chain of the handler. -/
theorem submitWord_cases (dict : String → Bool) (g : Game) (pid word : String)
    (player : Player) (hs : ¬ g.status ≠ GameStatus.active)
    (hp : g.players.lookup pid = some player) :
    submitWord dict g pid word =
      (if (normalizeWord word).length < 3 then
        (SubmitResult.rejected "Word must be at least 3 letters", g)
      else if canFormWord (normalizeWord word) g.letters = false then
        (SubmitResult.rejected "Cannot form word from available letters", g)
      else if dict (normalizeWord word) = false then
        (SubmitResult.rejected "Word not in dictionary", g)
      else if player.words.any (fun w => w.word == normalizeWord word) then
        (SubmitResult.rejected "Word already submitted", g)
      else
        (SubmitResult.accepted (calculatePoints (normalizeWord word)) (normalizeWord word),
         { g with players := updatePlayer g.players pid (fun p =>
            { p with words := p.words ++ [WordEntry.mk (normalizeWord word) (calculatePoints (normalizeWord word))],
                     score := p.score + calculatePoints (normalizeWord word) }) })) := by
  unfold submitWord
  rw [if_neg hs, hp]

/-- C3: after normalization (trim, uppercase), the four acceptance
checks run in the fixed order length ≥ 3, formability, dictionary,
not-already-submitted; the first failing check determines the rejection
reason; and with the round active and the player present the response is
never a transport-level error — a rejection is a successful response
carrying the reason (and leaves the state unchanged). -/
theorem submitWord_check_order (dict : String → Bool) (g : Game)
    (pid word : String) (player : Player)
    (hs : g.status = GameStatus.active)
    (hp : g.players.lookup pid = some player) :
    ((normalizeWord word).length < 3 →
       submitWord dict g pid word =
         (SubmitResult.rejected "Word must be at least 3 letters", g)) ∧
    (¬ (normalizeWord word).length < 3 →
       canFormWord (normalizeWord word) g.letters = false →
       submitWord dict g pid word =
         (SubmitResult.rejected "Cannot form word from available letters", g)) ∧
    (¬ (normalizeWord word).length < 3 →
       canFormWord (normalizeWord word) g.letters = true →
       dict (normalizeWord word) = false →
       submitWord dict g pid word =
         (SubmitResult.rejected "Word not in dictionary", g)) ∧
    (¬ (normalizeWord word).length < 3 →
       canFormWord (normalizeWord word) g.letters = true →
       dict (normalizeWord word) = true →
       player.words.any (fun w => w.word == normalizeWord word) = true →
       submitWord dict g pid word =
         (SubmitResult.rejected "Word already submitted", g)) ∧
    (∀ msg, (submitWord dict g pid word).1 ≠ SubmitResult.error msg) := by
  have hs2 : ¬ g.status ≠ GameStatus.active := by rw [hs]; exact fun hc => hc rfl
  rw [submitWord_cases dict g pid word player hs2 hp]
  refine ⟨?_, ?_, ?_, ?_, ?_⟩
  · intro h2
    rw [if_pos h2]
  · intro h2 h3
    rw [if_neg h2, if_pos h3]
  · intro h2 h3 h4
    rw [if_neg h2, if_neg (by simp [h3]), if_pos h4]
  · intro h2 h3 h4 h5
    rw [if_neg h2, if_neg (by simp [h3]), if_neg (by simp [h4]), if_pos h5]
  · intro msg
    by_cases h2 : (normalizeWord word).length < 3
    · rw [if_pos h2]; simp
    · rw [if_neg h2]
      by_cases h3 : canFormWord (normalizeWord word) g.letters = false
      · rw [if_pos h3]; simp
      · rw [if_neg h3]
        by_cases h4 : dict (normalizeWord word) = false
        · rw [if_pos h4]; simp
        · rw [if_neg h4]
          by_cases h5 : player.words.any (fun w => w.word == normalizeWord word)
          · rw [if_pos h5]; simp
          · rw [if_neg h5]; simp

/-- Witness for C3: in the concrete active round, the too-short word
`xy` is rejected with the length reason and the state is unchanged. -/
theorem submitWord_check_order_witness :
    submitWord dictW gameW1 "p1" "xy" =
      (SubmitResult.rejected "Word must be at least 3 letters", gameW1) :=
  (submitWord_check_order dictW gameW1 "p1" "xy" (Player.mk "Alice" [] 0)
    (by decide) (by decide)).1 (by decide)

/-- C5: if a submission is accepted, submitting the same word again
yields the rejection `Word already submitted` and returns the state of
the first acceptance unchanged (hence the score is unchanged). -/
theorem submitWord_duplicate (dict : String → Bool) (g : Game) (pid word : String)
    (pts : Int) (W : String) (g2 : Game)
    (h : submitWord dict g pid word = (SubmitResult.accepted pts W, g2)) :
    submitWord dict g2 pid word =
      (SubmitResult.rejected "Word already submitted", g2) := by
  unfold submitWord at h
  by_cases h1 : g.status ≠ GameStatus.active
  · rw [if_pos h1] at h; simp at h
  · rw [if_neg h1] at h
    have hact : g.status = GameStatus.active := not_not.1 h1
    cases hl : g.players.lookup pid with
    | none => rw [hl] at h; simp at h
    | some player =>
      rw [hl] at h
      dsimp only at h
      by_cases h2 : (normalizeWord word).length < 3
      · rw [if_pos h2] at h; simp at h
      · rw [if_neg h2] at h
        by_cases h3 : canFormWord (normalizeWord word) g.letters = false
        · rw [if_pos h3] at h; simp at h
        · rw [if_neg h3] at h
          by_cases h4 : dict (normalizeWord word) = false
          · rw [if_pos h4] at h; simp at h
          · rw [if_neg h4] at h
            by_cases h5 : player.words.any (fun w => w.word == normalizeWord word)
            · rw [if_pos h5] at h; simp at h
            · rw [if_neg h5] at h
              rw [Prod.mk.injEq] at h
              obtain ⟨-, hg2⟩ := h
              have h3t : canFormWord (normalizeWord word) g.letters = true := by
                cases hcf : canFormWord (normalizeWord word) g.letters
                · exact absurd hcf h3
                · rfl
              have h4t : dict (normalizeWord word) = true := by
                cases hd : dict (normalizeWord word)
                · exact absurd hd h4
                · rfl
              have hst2 : ¬ g2.status ≠ GameStatus.active := by
                rw [← hg2]
                intro hc
                exact hc hact
              have hlet : g2.letters = g.letters := by rw [← hg2]
              have hp2 : g2.players.lookup pid =
                  some { player with
                    words := player.words ++
                      [WordEntry.mk (normalizeWord word)
                        (calculatePoints (normalizeWord word))],
                    score := player.score + calculatePoints (normalizeWord word) } := by
                rw [← hg2]
                dsimp only
                rw [lookup_updatePlayer, hl]
                rfl
              rw [submitWord_cases dict g2 pid word _ hst2 hp2]
              rw [if_neg h2, if_neg (by rw [hlet]; simp [h3t]),
                if_neg (by simp [h4t]), if_pos (by
                  dsimp only
                  rw [List.any_append]
                  simp)]

/-- Witness for C5: Alice's `mast` is accepted once, then rejected as
already submitted, with the state (and score) unchanged. -/
theorem submitWord_duplicate_witness :
    submitWord dictW gameW1 "p1" "mast" = (SubmitResult.accepted 400 "MAST", gameW1a) ∧
    submitWord dictW gameW1a "p1" "mast" =
      (SubmitResult.rejected "Word already submitted", gameW1a) :=
  ⟨by decide,
   submitWord_duplicate dictW gameW1 "p1" "mast" 400 "MAST" gameW1a (by decide)⟩

/-! ## Lifecycle errors -/

/-- C8: joining a round that is not `waiting` fails with the
invalid-state error, and submitting to a round that is not `active`
fails with the invalid-state error; both leave the round unchanged. -/
theorem lifecycle_invalid_state (dict : String → Bool) (g : Game)
    (name newPid pid word : String) :
    (g.status ≠ GameStatus.waiting →
       joinGame g name newPid = (JoinResult.error "Game already started", g)) ∧
    (g.status ≠ GameStatus.active →
       submitWord dict g pid word = (SubmitResult.error "Game not active", g)) := by
  constructor
  · intro h
    unfold joinGame
    rw [if_pos h]
  · intro h
    unfold submitWord
    rw [if_pos h]

/-- Witness for C8: joining the active round `gameW1` and submitting to
the waiting round `gameW0` both fail with invalid-state errors. -/
theorem lifecycle_invalid_state_witness :
    joinGame gameW1 "Bob" "p2" = (JoinResult.error "Game already started", gameW1) ∧
    submitWord dictW gameW0 "p1" "mast" =
      (SubmitResult.error "Game not active", gameW0) :=
  ⟨(lifecycle_invalid_state dictW gameW1 "Bob" "p2" "p1" "mast").1 (by decide),
   (lifecycle_invalid_state dictW gameW0 "Bob" "p2" "p1" "mast").2 (by decide)⟩

/-! ## The retract handler -/

/-- C9: on an active round with an existing player, retracting a word
that is not in the player's list is a no-op success (the state is
returned unchanged, nothing is persisted); retracting a present word
succeeds, removes its first occurrence and decrements the score by
exactly the `points` value recorded with that entry. -/
theorem retractWord_spec (g : Game) (pid word : String) (player : Player)
    (hs : g.status = GameStatus.active)
    (hp : g.players.lookup pid = some player) :
    (removeFirstWord (normalizeWord word) player.words = none →
       retractWord g pid word = (RetractResult.success, g)) ∧
    (∀ removed rest,
       removeFirstWord (normalizeWord word) player.words = some (removed, rest) →
       (retractWord g pid word).1 = RetractResult.success ∧
       (retractWord g pid word).2.players.lookup pid =
         some (Player.mk player.name rest (player.score - removed.points))) := by
  have hs2 : ¬ g.status ≠ GameStatus.active := by rw [hs]; exact fun hc => hc rfl
  constructor
  · intro hr
    unfold retractWord
    rw [if_neg hs2, hp]
    dsimp only
    rw [hr]
  · intro removed rest hr
    unfold retractWord
    rw [if_neg hs2, hp]
    dsimp only
    rw [hr]
    refine ⟨rfl, ?_⟩
    rw [lookup_updatePlayer, hp]
    simp [hr]

/-- Witness for C9: retracting the absent `zzz` from `gameW1a` is a
no-op success; retracting the present `mast` removes it and restores the
score to 0. -/
theorem retractWord_spec_witness :
    retractWord gameW1a "p1" "zzz" = (RetractResult.success, gameW1a) ∧
    ((retractWord gameW1a "p1" "mast").1 = RetractResult.success ∧
     (retractWord gameW1a "p1" "mast").2.players.lookup "p1" =
       some (Player.mk "Alice" [] 0)) := by
  have hplayer : gameW1a.players.lookup "p1" =
      some (Player.mk "Alice" [WordEntry.mk "MAST" 400] 400) := by decide
  have h := retractWord_spec gameW1a "p1" "zzz"
    (Player.mk "Alice" [WordEntry.mk "MAST" 400] 400) (by decide) hplayer
  have h2 := retractWord_spec gameW1a "p1" "mast"
    (Player.mk "Alice" [WordEntry.mk "MAST" 400] 400) (by decide) hplayer
  refine ⟨h.1 (by decide), ?_⟩
  have h3 := h2.2 (WordEntry.mk "MAST" 400) [] (by decide)
  refine ⟨h3.1, ?_⟩
  rw [h3.2]
  decide

/-! ## Game codes -/

/-- C7 counterexample: the code alphabet
`ABCDEFGHJKLMNPQRSTUVWXYZ23456789` has 32 characters, not 33. -/
theorem codeAlphabet_ne_33 :
    codeAlphabet.length = 32 ∧ ¬ codeAlphabet.length = 33 := by decide

/-- C7 (amended): every generated code is exactly 6 characters, each
drawn from the fixed 32-character alphabet, which excludes the visually
ambiguous characters 0, O, 1 and I. -/
theorem gameCode_spec (r : Fin 6 → Fin codeAlphabet.length) :
    (generateGameCode r).length = 6 ∧
    (∀ c ∈ (generateGameCode r).data, c ∈ codeAlphabet) ∧
    codeAlphabet.length = 32 ∧
    ('0' ∉ codeAlphabet ∧ 'O' ∉ codeAlphabet ∧ '1' ∉ codeAlphabet ∧ 'I' ∉ codeAlphabet) := by
  refine ⟨?_, ?_, by decide, by decide⟩
  · show (String.mk ((List.finRange 6).map (fun i => codeAlphabet.get (r i)))).length = 6
    simp [String.length]
  · intro c hc
    unfold generateGameCode at hc
    dsimp only at hc
    rcases List.mem_map.1 hc with ⟨i, _, rfl⟩
    exact List.get_mem _ _ _

end AnagramServer
